import Mathlib

/-
Verification of the Ollama Swarm reverse proxy (src/app.py) against its
natural-language specification.  The Python module is shallowly embedded:
module-level mutable state (the `ollama_hosts` registry and the round-robin
`_host_counter`) is passed explicitly, the catch-all `proxy` retry loop
becomes a fuel-bounded recursion whose fuel is proved sufficient, and the
behaviour of the external backends during one inbound request is a function
from host to result.
-/

namespace OllamaSwarm

/-- JSON object payloads (the `data` dict of app.py) carried by requests,
with field values rendered as strings.  The proxy never inspects `data`
beyond Python truthiness, so a flat field map is an adequate carrier. -/
abbrev JsonDict := List (String × String)

/-- Python truthiness of a dict (`data if data else None`): the empty dict is
falsy, every non-empty dict is truthy. -/
def dictTruthy (d : JsonDict) : Bool :=
  !d.isEmpty

/-- The two methods accepted by the catch-all route (line 145). -/
inductive Method
  | get
  | post
deriving DecidableEq

/-- One inbound request to the catch-all route: its method, its query-string
parameters, and the result of parsing its raw body as JSON (`none` models a
body that `request.json()` fails to parse, e.g. an empty or non-JSON body). -/
structure ProxyRequest where
  method : Method
  queryParams : JsonDict
  body : Option JsonDict
deriving DecidableEq

/-- A backend HTTP response that was successfully received: status code,
optional Content-Type header, body bytes. -/
structure BackendResponse where
  status : Nat
  contentType : Option String
  body : List Nat
deriving DecidableEq

/-- Behaviour of one backend host for the inbound request being dispatched:
either the exchange fails at transport level (`httpx.RequestError`) or a
response with some status code arrives. -/
inductive BackendResult
  | transportError (msg : String)
  | response (resp : BackendResponse)

/-- `register_host` (lines 36-44): append the raw url unless an exactly equal
string is already present.  No normalization happens here. -/
def registerHost (url : String) (hosts : List String) : List String :=
  if url ∈ hosts then hosts else hosts ++ [url]

/-- `unregister_host` (lines 46-54): `list.remove` deletes the first matching
entry in place; absence is a no-op. -/
def unregisterHost (url : String) (hosts : List String) : List String :=
  hosts.erase url

/-- One registry mutation arriving at /register or /unregister. -/
inductive RegOp
  | reg (url : String)
  | unreg (url : String)

def applyOp (hosts : List String) : RegOp → List String
  | .reg url => registerHost url hosts
  | .unreg url => unregisterHost url hosts

/-- The registry produced by a sequence of register/unregister calls starting
from the empty list the process boots with (line 22). -/
def applyOps (ops : List RegOp) : List String :=
  ops.foldl applyOp []

/-- Python `str.rstrip('/')`: drop every trailing slash. -/
def rstripSlash (s : String) : String :=
  String.mk ((s.data.reverse.dropWhile (fun c => c == '/')).reverse)

/-- Python `str.lstrip('/')`: drop every leading slash. -/
def lstripSlash (s : String) : String :=
  String.mk (s.data.dropWhile (fun c => c == '/'))

/-- The URL built by `forward_request` (line 61): host with trailing slashes
stripped, one slash, path with leading slashes stripped. -/
def forwardUrl (host path : String) : String :=
  rstripSlash host ++ "/" ++ lstripSlash path

/-- `get_next_host` (lines 90-104): under the counter lock, raise 503 when
the registry is empty, otherwise return the host at index
`counter % len(hosts)` and advance the counter by one. -/
def getNextHost (hosts : List String) (counter : Nat) :
    Except (Nat × String) (String × Nat) :=
  if hosts.isEmpty then .error (503, "No Ollama hosts registered")
  else .ok (hosts.getD (counter % hosts.length) "", counter + 1)

/-- The hosts returned by successive `get_next_host` calls over a static
registry (an empty-registry error aborts the sequence). -/
def nextCalls (hosts : List String) : Nat → Nat → List String
  | _, 0 => []
  | counter, n + 1 =>
    match getNextHost hosts counter with
    | .error _ => []
    | .ok (h, c2) => h :: nextCalls hosts c2 n

/-- What `forward_request` sends to the backend (lines 69-72), as the pair
(query parameters, JSON body): for GET, `params=data if data else None` and
no body; for POST, `json=data` and no query parameters. -/
def forwardSent : Method → JsonDict → Option JsonDict × Option JsonDict
  | .get, data => (if dictTruthy data then some data else none, none)
  | .post, data => (none, some data)

/-- Outcome of `forward_request` (lines 67-88): a transport error becomes an
HTTPException 502; `raise_for_status` turns a non-2xx status into an
HTTPException carrying the backend status; a 2xx response is returned. -/
def forwardOutcome (backend : String → BackendResult) (host : String) :
    Except (Nat × String) BackendResponse :=
  match backend host with
  | .transportError msg =>
    .error (502, "Host " ++ host ++ " failed: " ++ msg)
  | .response resp =>
    if 200 ≤ resp.status ∧ resp.status < 300 then .ok resp
    else .error (resp.status, "Host " ++ host ++ " returned error: " ++ toString resp.status)

/-- A backend behaviour that `forward_request` reports as a failed attempt:
transport error, or a response whose status is not 2xx. -/
def isHostFailure : BackendResult → Bool
  | .transportError _ => true
  | .response resp => if 200 ≤ resp.status ∧ resp.status < 300 then false else true

/-- `stream_gen` (lines 164-169): slice the fully received `response.content`
into consecutive 8192-byte chunks (`content[i:i+chunk_size]` for
`i in range(0, len(content), chunk_size)`). -/
def streamGen (content : List Nat) : List (List Nat) :=
  (List.range ((content.length + 8191) / 8192)).map
    (fun i => (content.drop (8192 * i)).take 8192)

/-- Result of one dispatch as seen by the caller: a streamed success
(status, media type, body chunks) or an HTTP failure. -/
inductive DispatchResult
  | success (status : Nat) (mediaType : String) (chunks : List (List Nat))
  | failure (status : Nat) (detail : String)
deriving DecidableEq

/-- The `StreamingResponse` built on success (lines 171-181): status
preserved, media type from the Content-Type header with `application/json`
as the default, body re-chunked by `stream_gen`. -/
def relay (resp : BackendResponse) : DispatchResult :=
  .success resp.status (resp.contentType.getD "application/json") (streamGen resp.body)

/-- Index at which the failover scan starts (lines 191-194): just after the
index of the most recently tried host, or 0 when that host is no longer in
the registry (`current_idx = -1` in the Python). -/
def scanStart (hosts : List String) (current : String) : Nat :=
  match hosts.indexOf? current with
  | some i => i + 1
  | none => 0

/-- The candidate inspected at step `i` of the failover scan (line 195):
`ollama_hosts[(current_idx + i + 1) % len(ollama_hosts)]`. -/
def scanCand (hosts : List String) (current : String) (i : Nat) : String :=
  hosts.getD ((scanStart hosts current + i) % hosts.length) ""

/-- The failover search of the proxy loop (lines 190-198): scan the
candidates for `i in range(len(hosts))` and return the first one not already
in `tried_hosts`. -/
def findNextHost (hosts : List String) (current : String) (tried : List String) :
    Option String :=
  (List.range hosts.length).findSome? (fun i =>
    if scanCand hosts current i ∈ tried then none else some (scanCand hosts current i))

/-- Outcome of the catch-all endpoint: the body failed to parse
(`request.json()` raised), or the dispatch loop produced a result. -/
inductive ProxyOutcome
  | parseError
  | result (r : DispatchResult)
deriving DecidableEq

/-- The `while True` retry loop of `proxy` (lines 155-204).  `fuel` bounds
the number of iterations; the loop needs at most one iteration per untried
registered host, callers pass `hosts.length`, and `dispatchLoop_spec` below
shows the fuel sentinel is never reached from those calls. -/
def dispatchLoop (hosts : List String)
    (attempt : String → Except (Nat × String) BackendResponse) :
    Nat → String → List String → DispatchResult × List String
  | 0, _, tried => (.failure 500 "loop fuel exhausted", tried)
  | fuel + 1, current, tried =>
    let tried2 := tried ++ [current]
    match attempt current with
    | .ok resp => (relay resp, tried2)
    | .error _ =>
      if hosts = [] then (.failure 503 "No Ollama hosts registered", tried2)
      else
        match findNextHost hosts current tried2 with
        | none => (.failure 503 "All available hosts failed", tried2)
        | some next =>
          if next ∈ tried2 then (.failure 503 "All available hosts failed", tried2)
          else dispatchLoop hosts attempt fuel next tried2

/-- One dispatch after body parsing (lines 150-204): pick the starting host
with `get_next_host`, then run the retry loop.  Returns the result, the
counter value after the dispatch, and the final `tried_hosts` list. -/
def dispatch (hosts : List String) (counter : Nat)
    (attempt : String → Except (Nat × String) BackendResponse) :
    DispatchResult × Nat × List String :=
  match getNextHost hosts counter with
  | .error e => (.failure e.1 e.2, counter, [])
  | .ok (first, c2) =>
    let r := dispatchLoop hosts attempt hosts.length first []
    (r.1, c2, r.2)

/-- Line 148, `data = await request.json()` when the method is POST, else the
empty dict: for POST the body parse result (`none` propagates the parse
exception), for GET the empty dict. -/
def proxyData : Method → Option JsonDict → Option JsonDict
  | .post, body => body
  | .get, _ => some []

/-- The catch-all `proxy` endpoint (lines 145-204) over a static registry:
parse the body, then dispatch.  Returns the outcome, the rotation counter
after the call, and the list of tried hosts. -/
def proxy (hosts : List String) (counter : Nat) (req : ProxyRequest)
    (backend : String → BackendResult) : ProxyOutcome × Nat × List String :=
  match proxyData req.method req.body with
  | none => (.parseError, counter, [])
  | some _ =>
    let r := dispatch hosts counter (forwardOutcome backend)
    (.result r.1, r.2.1, r.2.2)

/-- What one dispatched attempt sends to a backend for a given inbound
request, as (params, json body); `none` when body parsing fails before any
send. -/
def sentToBackend (req : ProxyRequest) : Option (Option JsonDict × Option JsonDict) :=
  (proxyData req.method req.body).map (forwardSent req.method)

/-- Inbound query parameters rendered as the dict that would be forwarded if
the proxy passed them through. -/
def queryParamsDict (qs : List (String × String)) : JsonDict :=
  qs

/-- Per-host outcome map entry of `admin_pull` (lines 110-129): `"success"`
or `"failed: <reason>"`; every exception is caught per host. -/
def pullOutcome (r : Except String Unit) : String :=
  match r with
  | .ok _ => "success"
  | .error e => "failed: " ++ e

/-- `admin_pull`: iterate a snapshot of the registry, recording one outcome
per host; one host's failure leaves the other entries untouched. -/
def adminPull (hosts : List String) (pull : String → Except String Unit) :
    List (String × String) :=
  hosts.map (fun h => (h, pullOutcome (pull h)))

/-- One entry of the `admin_list_models` outcome map: a catalog payload or a
failure string. -/
inductive FanOutcome
  | payload (p : JsonDict)
  | failed (msg : String)
deriving DecidableEq

/-- Per-host outcome of `admin_list_models` (lines 132-143). -/
def tagsOutcome (r : Except String JsonDict) : FanOutcome :=
  match r with
  | .ok p => .payload p
  | .error e => .failed ("failed: " ++ e)

/-- `admin_list_models`: iterate the registry under the lock, recording one
outcome per host. -/
def adminListModels (hosts : List String) (tags : String → Except String JsonDict) :
    List (String × FanOutcome) :=
  hosts.map (fun h => (h, tagsOutcome (tags h)))

/-! ### Helper lemmas -/

theorem getD_lt {α : Type} (l : List α) (d : α) (n : Nat) (h : n < l.length) :
    l.getD n d = l[n] := by
  simp [List.getD_eq_getElem?_getD, List.getElem?_eq_getElem h]

theorem registerHost_nodup (url : String) (hosts : List String)
    (h : hosts.Nodup) : (registerHost url hosts).Nodup := by
  unfold registerHost
  by_cases hm : url ∈ hosts
  · simpa [hm]
  · have hn : (url :: hosts).Nodup := List.nodup_cons.mpr ⟨hm, h⟩
    have hperm := List.perm_append_singleton url hosts
    rw [if_neg hm]
    exact hperm.nodup_iff.mpr hn

theorem applyOp_nodup (hosts : List String) (op : RegOp)
    (h : hosts.Nodup) : (applyOp hosts op).Nodup := by
  cases op with
  | reg url => exact registerHost_nodup url hosts h
  | unreg url => exact h.erase url

theorem foldl_applyOp_nodup (ops : List RegOp) :
    ∀ l : List String, l.Nodup → (ops.foldl applyOp l).Nodup := by
  induction ops with
  | nil => intro l h; simpa using h
  | cons op rest ih =>
    intro l h
    exact ih (applyOp l op) (applyOp_nodup l op h)

/-! ### Claim C4 -/

/-- Claim C4: for every sequence of register/unregister operations the
registry never contains two equal entries; register appends the new host at
the end, and unregister deletes the matching entry in place, preserving the
relative order of the surviving hosts (the result is a sublist of the
original registry). -/
theorem registry_invariant (ops : List RegOp) (url : String) (l : List String) :
    (applyOps ops).Nodup ∧
    (url ∉ l → registerHost url l = l ++ [url]) ∧
    List.Sublist (unregisterHost url l) l := by
  refine ⟨foldl_applyOp_nodup ops [] List.nodup_nil, ?_, List.erase_sublist url l⟩
  intro hnm
  simp [registerHost, hnm]

/-- Witness for C4 on a concrete operation sequence and concrete registries. -/
theorem registry_invariant_witness :
    (applyOps [RegOp.reg "http://a:11434", RegOp.reg "http://b:11434",
      RegOp.unreg "http://a:11434"]).Nodup ∧
    registerHost "http://c:11434" ["http://b:11434"] =
      ["http://b:11434", "http://c:11434"] ∧
    List.Sublist
      (unregisterHost "http://a:11434" ["http://a:11434", "http://b:11434"])
      ["http://a:11434", "http://b:11434"] := by
  have h1 := registry_invariant
    [RegOp.reg "http://a:11434", RegOp.reg "http://b:11434",
      RegOp.unreg "http://a:11434"] "http://c:11434" ["http://b:11434"]
  have h2 := registry_invariant [] "http://a:11434"
    ["http://a:11434", "http://b:11434"]
  exact ⟨h1.1, h1.2.1 (by decide), h2.2.2⟩

/-! ### Claim C5 -/

/-- Claim C5 fails on the code: `register_host` compares the raw URL string
and performs no trailing-slash normalization, so registering a URL that
differs from an already registered host only by a trailing slash appends a
second entry instead of leaving the registry unchanged.  The two stored
entries have the same slash-normalized form. -/
theorem register_slash_counterexample :
    registerHost "http://h:11434/" (registerHost "http://h:11434" []) =
      ["http://h:11434", "http://h:11434/"] ∧
    registerHost "http://h:11434/" ["http://h:11434"] ≠ ["http://h:11434"] ∧
    rstripSlash "http://h:11434/" = rstripSlash "http://h:11434" := by
  refine ⟨by decide, by decide, by decide⟩

/-- Claim C5 amended: host identity in the registry is the raw URL string:
a registration is a no-op exactly when an equal raw string is present,
otherwise the URL is appended (so slash variants coexist as distinct
entries), and no two entries are equal as raw strings.  Trailing-slash
stripping happens only when `forward_request` builds the backend URL, where
a host with a trailing slash yields the same URL as the host without it. -/
theorem register_raw_identity_amended (url host path : String)
    (hosts : List String) :
    (url ∈ hosts → registerHost url hosts = hosts) ∧
    (url ∉ hosts → registerHost url hosts = hosts ++ [url]) ∧
    (hosts.Nodup → (registerHost url hosts).Nodup) ∧
    forwardUrl (host ++ "/") path = forwardUrl host path := by
  refine ⟨?_, ?_, registerHost_nodup url hosts, ?_⟩
  · intro hm; simp [registerHost, hm]
  · intro hnm; simp [registerHost, hnm]
  · unfold forwardUrl rstripSlash
    have hdata : (host ++ "/").data = host.data ++ ['/'] := by
      simp [String.data_append]
    rw [hdata]
    simp [List.dropWhile]

/-- Witness for the amended C5 on concrete URLs. -/
theorem register_raw_identity_amended_witness :
    registerHost "http://h:11434" ["http://h:11434"] = ["http://h:11434"] ∧
    registerHost "http://h:11434/" ["http://h:11434"] =
      ["http://h:11434", "http://h:11434/"] ∧
    (["http://h:11434"] : List String).Nodup ∧
    forwardUrl ("http://h:11434" ++ "/") "api/tags" =
      forwardUrl "http://h:11434" "api/tags" := by
  have h := register_raw_identity_amended "http://h:11434" "http://h:11434"
    "api/tags" ["http://h:11434"]
  have h2 := register_raw_identity_amended "http://h:11434/" "http://h:11434"
    "api/tags" ["http://h:11434"]
  exact ⟨h.1 (by decide), h2.2.1 (by decide), h.2.2.1 (by decide), h.2.2.2⟩

/-! ### Claim C8 -/

/-- Claim C8 fails on the code: the proxy never reads the inbound query
string; for GET it always passes the empty dict to `forward_request`, which
turns it into no parameters at all, so a GET with query parameters reaches
the backend with none of them. -/
theorem get_params_counterexample :
    sentToBackend ⟨.get, [("foo", "bar")], none⟩ = some (none, none) ∧
    (some ((none : Option JsonDict), (none : Option JsonDict)) ≠
      some (some (queryParamsDict [("foo", "bar")]), (none : Option JsonDict))) := by
  refine ⟨rfl, by decide⟩

/-- Claim C8 amended: every GET handled by the catch-all route is forwarded
to the backend with no request parameters and no body, whatever the inbound
query string carries: the dispatch path fixes `data` to the empty dict for
GET, and `forward_request` maps the empty dict to no parameters. -/
theorem get_forwards_no_params (qs : List (String × String))
    (body : Option JsonDict) :
    sentToBackend ⟨.get, qs, body⟩ = some (none, none) := rfl

/-! ### Claim C10 -/

/-- Claim C10: every POST to the catch-all route must carry a body that
parses as JSON: the body is parsed before any host selection, so a POST
whose body does not parse ends with a parse failure, an unchanged rotation
counter and an empty attempt list (no backend call), while a GET is
forwarded with no payload at all. -/
theorem post_requires_json_body (hosts : List String) (counter : Nat)
    (qs : List (String × String)) (backend : String → BackendResult)
    (body : Option JsonDict) :
    proxy hosts counter ⟨.post, qs, none⟩ backend = (.parseError, counter, []) ∧
    proxyData .post none = none ∧
    proxyData .get body = some [] ∧
    forwardSent .get [] = (none, none) := by
  exact ⟨rfl, rfl, rfl, rfl⟩

/-! ### Claim C9 -/

theorem lookup_map_self {β : Type} (f : String → β) :
    ∀ (l : List String) (x : String), x ∈ l →
      (l.map (fun a => (a, f a))).lookup x = some (f x) := by
  intro l
  induction l with
  | nil => intro x hx; cases hx
  | cons a t ih =>
    intro x hx
    rw [List.mem_cons] at hx
    by_cases hax : x = a
    · subst hax
      simp [List.lookup]
    · have hxt : x ∈ t := hx.resolve_left hax
      have hbeq : (x == a) = false := by simp [hax]
      simp [List.lookup, hbeq, ih x hxt]

/-- Claim C9: for both fan-out operations, every registered host appears in
the outcome map with its own success payload or per-host failure string, and
one host's failure never affects another host's entry: the entry at `h` is
the same under any two backend behaviours that agree at `h`, whatever the
other hosts do.  Both fan-outs are total functions of the per-host results,
so no per-host failure escapes to the caller. -/
theorem fanout_per_host (hosts : List String)
    (pull : String → Except String Unit)
    (tags tags2 : String → Except String JsonDict)
    (h : String) (hmem : h ∈ hosts) (hsame : tags2 h = tags h) :
    ((adminPull hosts pull).map Prod.fst = hosts) ∧
    ((adminListModels hosts tags).map Prod.fst = hosts) ∧
    ((adminPull hosts pull).lookup h = some (pullOutcome (pull h))) ∧
    ((adminListModels hosts tags).lookup h = some (tagsOutcome (tags h))) ∧
    ((adminListModels hosts tags2).lookup h = some (tagsOutcome (tags h))) := by
  refine ⟨?_, ?_, ?_, ?_, ?_⟩
  · simp [adminPull, Function.comp_def]
  · simp [adminListModels, Function.comp_def]
  · exact lookup_map_self (fun a => pullOutcome (pull a)) hosts h hmem
  · exact lookup_map_self (fun a => tagsOutcome (tags a)) hosts h hmem
  · rw [show tagsOutcome (tags h) = tagsOutcome (tags2 h) from by rw [hsame]]
    exact lookup_map_self (fun a => tagsOutcome (tags2 a)) hosts h hmem

/-- Witness for C9: the spec scenario with hosts A and B where A returns a
catalog payload and B is unreachable; B's entry is its failure string, and
A's entry is the payload even when B's behaviour changes. -/
theorem fanout_per_host_witness :
    ((adminListModels ["http://a:11434", "http://b:11434"]
        (fun h => if h = "http://a:11434" then .ok [("models", "m1")]
          else .error "unreachable")).lookup "http://b:11434" =
      some (.failed "failed: unreachable")) ∧
    ((adminListModels ["http://a:11434", "http://b:11434"]
        (fun h => if h = "http://a:11434" then .ok [("models", "m1")]
          else .error "unreachable")).map Prod.fst =
      ["http://a:11434", "http://b:11434"]) := by
  have h := fanout_per_host ["http://a:11434", "http://b:11434"]
    (fun _ => .ok ())
    (fun h => if h = "http://a:11434" then .ok [("models", "m1")]
      else .error "unreachable")
    (fun h => if h = "http://a:11434" then .ok [("models", "m1")]
      else .error "unreachable")
    "http://b:11434" (by decide) rfl
  refine ⟨?_, h.2.1⟩
  have hb := h.2.2.2.1
  simpa using hb

/-! ### Claim C3 -/

theorem getNextHost_ok (hosts : List String) (hne : hosts ≠ []) (c : Nat) :
    getNextHost hosts c = .ok (hosts.getD (c % hosts.length) "", c + 1) := by
  simp [getNextHost, hne]

theorem getNextHost_error_iff (hosts : List String) (c : Nat) :
    getNextHost hosts c = .error (503, "No Ollama hosts registered") ↔ hosts = [] := by
  constructor
  · intro h
    by_contra hne
    rw [getNextHost_ok hosts hne c] at h
    exact Except.noConfusion h
  · intro h
    subst h
    rfl

theorem nextCalls_formula (hosts : List String) (hne : hosts ≠ []) :
    ∀ (n counter : Nat),
      nextCalls hosts counter n =
        (List.range n).map (fun i => hosts.getD ((counter + i) % hosts.length) "") := by
  intro n
  induction n with
  | zero => intro counter; rfl
  | succ n ih =>
    intro counter
    simp only [nextCalls, getNextHost_ok hosts hne counter]
    rw [ih (counter + 1), List.range_succ_eq_map, List.map_cons, List.map_map]
    simp only [Nat.add_zero]
    congr 1
    apply List.map_congr_left
    intro a _
    simp only [Function.comp_apply, Nat.succ_eq_add_one]
    congr 2
    omega

theorem nextCalls_rotate (hosts : List String) (hne : hosts ≠ []) (counter : Nat) :
    nextCalls hosts counter hosts.length = hosts.rotate (counter % hosts.length) := by
  have hlen : 0 < hosts.length := List.length_pos.mpr hne
  rw [nextCalls_formula hosts hne hosts.length counter]
  apply List.ext_getElem
  · simp
  · intro i h1 h2
    have hi : i < hosts.length := by simpa using h1
    simp only [List.getElem_map, List.getElem_range]
    rw [List.getElem_rotate]
    rw [getD_lt hosts "" ((counter + i) % hosts.length) (Nat.mod_lt _ hlen)]
    have hidx : (counter + i) % hosts.length =
        (i + counter % hosts.length) % hosts.length := by
      conv_lhs => rw [Nat.add_mod]
      conv_rhs => rw [Nat.add_mod, Nat.mod_mod]
      rw [Nat.mod_eq_of_lt hi, Nat.add_comm]
    simp only [hidx]

/-- Claim C3 fails on the code as stated: with registry [a, b] and rotation
counter 1, two successive selector calls return b then a, which is not
registration order. -/
theorem rotation_order_counterexample :
    nextCalls ["http://a:11434", "http://b:11434"] 1 2 =
      ["http://b:11434", "http://a:11434"] ∧
    (["http://b:11434", "http://a:11434"] : List String) ≠
      ["http://a:11434", "http://b:11434"] := by
  refine ⟨by decide, by decide⟩

/-- Claim C3 amended: over a static registry of size N, N successive
`get_next_host` calls return every registered host exactly once before any
repeat, in cyclic registration order — the rotation of the registry starting
at index (counter mod N); it is registration order itself exactly when the
counter is congruent to 0 mod N.  The selector fails with the 503
no-hosts-registered error if and only if the registry is empty at selection
time. -/
theorem rotation_visits_all_amended (hosts : List String) (counter : Nat) :
    (getNextHost hosts counter = .error (503, "No Ollama hosts registered") ↔
      hosts = []) ∧
    (hosts ≠ [] →
      nextCalls hosts counter hosts.length = hosts.rotate (counter % hosts.length) ∧
      (nextCalls hosts counter hosts.length).Perm hosts ∧
      (hosts.Nodup → (nextCalls hosts counter hosts.length).Nodup)) := by
  refine ⟨getNextHost_error_iff hosts counter, ?_⟩
  intro hne
  have hrot := nextCalls_rotate hosts hne counter
  have hperm : (nextCalls hosts counter hosts.length).Perm hosts := by
    rw [hrot]
    exact List.rotate_perm hosts (counter % hosts.length)
  exact ⟨hrot, hperm, fun hnd => hperm.symm.nodup hnd⟩

/-- Witness for the amended C3: registry [a, b, c] with counter 4 yields
b, c, a — the rotation by 4 mod 3 = 1 — a permutation with no repeats. -/
theorem rotation_visits_all_amended_witness :
    nextCalls ["a", "b", "c"] 4 3 = (["a", "b", "c"] : List String).rotate (4 % 3) ∧
    (nextCalls ["a", "b", "c"] 4 3).Perm ["a", "b", "c"] ∧
    (nextCalls ["a", "b", "c"] 4 3).Nodup := by
  have h := (rotation_visits_all_amended ["a", "b", "c"] 4).2 (by decide)
  exact ⟨h.1, h.2.1, h.2.2 (by decide)⟩

/-! ### Failover-scan lemmas (claims C6, C2, C7) -/

theorem findSome?_range_eq_some {β : Type} :
    ∀ (N : Nat) (f : Nat → Option β) (b : β),
      (List.range N).findSome? f = some b →
      ∃ k, k < N ∧ f k = some b ∧ ∀ j, j < k → f j = none := by
  intro N
  induction N with
  | zero => intro f b h; cases h
  | succ N ih =>
    intro f b h
    rw [List.range_succ_eq_map, List.findSome?_cons] at h
    cases h0 : f 0 with
    | some b0 =>
      rw [h0] at h
      obtain rfl : b0 = b := Option.some_inj.mp h
      exact ⟨0, Nat.succ_pos N, h0, fun j hj => absurd hj (Nat.not_lt_zero j)⟩
    | none =>
      rw [h0] at h
      rw [List.findSome?_map] at h
      obtain ⟨k, hk, hfk, hprev⟩ := ih (f ∘ Nat.succ) b h
      refine ⟨k + 1, Nat.succ_lt_succ hk, hfk, ?_⟩
      intro j hj
      cases j with
      | zero => exact h0
      | succ j => exact hprev j (Nat.lt_of_succ_lt_succ hj)

theorem scanCand_mem (hosts : List String) (current : String) (i : Nat)
    (hN : 0 < hosts.length) : scanCand hosts current i ∈ hosts := by
  unfold scanCand
  rw [getD_lt hosts "" _ (Nat.mod_lt _ hN)]
  exact List.getElem_mem _

theorem scanCand_surj (hosts : List String) (current : String) (m : Nat)
    (hm : m < hosts.length) :
    ∃ i, i < hosts.length ∧
      (scanStart hosts current + i) % hosts.length = m := by
  have hN : 0 < hosts.length := lt_of_le_of_lt (Nat.zero_le m) hm
  refine ⟨(m + hosts.length - scanStart hosts current % hosts.length) % hosts.length,
    Nat.mod_lt _ hN, ?_⟩
  rw [← Nat.mod_add_mod, Nat.add_mod_mod]
  have hslt : scanStart hosts current % hosts.length < hosts.length := Nat.mod_lt _ hN
  have h2 : scanStart hosts current % hosts.length +
      (m + hosts.length - scanStart hosts current % hosts.length) =
      m + hosts.length := by omega
  rw [h2, Nat.add_mod_right, Nat.mod_eq_of_lt hm]

theorem findNextHost_none_iff (hosts : List String) (current : String)
    (tried : List String) :
    findNextHost hosts current tried = none ↔ ∀ h ∈ hosts, h ∈ tried := by
  unfold findNextHost
  rw [List.findSome?_eq_none_iff]
  constructor
  · intro hall h hmem
    obtain ⟨m, hm, hget⟩ := List.getElem_of_mem hmem
    obtain ⟨i, hilt, hidx⟩ := scanCand_surj hosts current m hm
    have hcand := hall i (List.mem_range.mpr hilt)
    have hceq : scanCand hosts current i = h := by
      unfold scanCand
      rw [hidx, getD_lt hosts "" m hm, hget]
    rw [hceq] at hcand
    by_contra hniet
    rw [if_neg hniet] at hcand
    cases hcand
  · intro htried i hi
    have hN : 0 < hosts.length :=
      lt_of_le_of_lt (Nat.zero_le i) (List.mem_range.mp hi)
    rw [if_pos (htried _ (scanCand_mem hosts current i hN))]

theorem findNextHost_some (hosts : List String) (current : String)
    (tried : List String) (next : String)
    (h : findNextHost hosts current tried = some next) :
    next ∈ hosts ∧ next ∉ tried ∧
    ∃ k, k < hosts.length ∧ next = scanCand hosts current k ∧
      ∀ j, j < k → scanCand hosts current j ∈ tried := by
  unfold findNextHost at h
  obtain ⟨k, hk, hfk, hprev⟩ := findSome?_range_eq_some hosts.length _ next h
  have hN : 0 < hosts.length := lt_of_le_of_lt (Nat.zero_le k) hk
  by_cases hmem : scanCand hosts current k ∈ tried
  · rw [if_pos hmem] at hfk; cases hfk
  · rw [if_neg hmem] at hfk
    obtain rfl : scanCand hosts current k = next := Option.some_inj.mp hfk
    refine ⟨scanCand_mem hosts current k hN, hmem, k, hk, rfl, ?_⟩
    intro j hj
    have hpj := hprev j hj
    by_contra hnj
    rw [if_neg hnj] at hpj
    cases hpj

/-! ### Claim C6 -/

/-- Claim C6: on a failed attempt the engine scans the registry starting just
after the index of the most recently tried host, wrapping modulo the current
registry size, and picks the first host not already tried; it finds no host
(and the dispatch moves to exhaustion) exactly when the registry is empty or
every registered host was already tried. -/
theorem failover_scan (hosts : List String) (current : String)
    (tried : List String) :
    (findNextHost hosts current tried = none ↔
      hosts = [] ∨ ∀ h ∈ hosts, h ∈ tried) ∧
    (∀ next, findNextHost hosts current tried = some next →
      next ∈ hosts ∧ next ∉ tried ∧
      ∃ k, k < hosts.length ∧ next = scanCand hosts current k ∧
        ∀ j, j < k → scanCand hosts current j ∈ tried) := by
  constructor
  · rw [findNextHost_none_iff]
    constructor
    · intro h
      exact Or.inr h
    · intro h
      cases h with
      | inl h =>
        subst h
        intro x hx
        cases hx
      | inr h => exact h
  · intro next h
    exact findNextHost_some hosts current tried next h

/-- Witness for C6: registry [a, b, c], most recently tried a, attempt set
containing a and b: the scan starting after a selects c, the first untried
candidate, at scan offset 1 (b, at offset 0, is already tried). -/
theorem failover_scan_witness :
    "http://c" ∈ ["http://a", "http://b", "http://c"] ∧
    "http://c" ∉ ["http://a", "http://b"] ∧
    ∃ k, k < (["http://a", "http://b", "http://c"] : List String).length ∧
      "http://c" = scanCand ["http://a", "http://b", "http://c"] "http://a" k ∧
      ∀ j, j < k →
        scanCand ["http://a", "http://b", "http://c"] "http://a" j ∈
          ["http://a", "http://b"] := by
  exact (failover_scan ["http://a", "http://b", "http://c"] "http://a"
    ["http://a", "http://b"]).2 "http://c" (by decide)

/-! ### Dispatch-loop machinery (claims C2, C7) -/

theorem countP_lt_of {α : Type} (p q : α → Bool) (a : α)
    (hqa : q a = true) (hpa : p a = false) :
    ∀ l : List α, (∀ x ∈ l, p x = true → q x = true) → a ∈ l →
      l.countP p < l.countP q := by
  intro l
  induction l with
  | nil => intro _ ha; cases ha
  | cons b t ih =>
    intro himp ha
    rw [List.mem_cons] at ha
    rw [List.countP_cons, List.countP_cons]
    have hmono : t.countP p ≤ t.countP q :=
      List.countP_mono_left (fun x hx => himp x (List.mem_cons_of_mem b hx))
    cases ha with
    | inl hab =>
      subst hab
      rw [hpa, hqa]
      simp only [Bool.false_eq_true, if_false, if_true]
      omega
    | inr hat =>
      have hlt := ih (fun x hx => himp x (List.mem_cons_of_mem b hx)) hat
      have hcase : (if p b = true then 1 else 0 : Nat) ≤
          (if q b = true then 1 else 0) := by
        by_cases hpb : p b = true
        · rw [if_pos hpb, if_pos (himp b (List.mem_cons_self b t) hpb)]
        · rw [if_neg hpb]
          exact Nat.zero_le _
      omega

/-- Number of registered hosts not yet tried: the loop measure. -/
def untried (hosts tried : List String) : Nat :=
  hosts.countP (fun h => decide (h ∉ tried))

theorem untried_pos (hosts tried : List String) (current : String)
    (hc : current ∈ hosts) (hnt : current ∉ tried) :
    0 < untried hosts tried := by
  unfold untried
  rw [List.countP_pos_iff]
  exact ⟨current, hc, by simpa using hnt⟩

theorem untried_append_lt (hosts tried : List String) (current : String)
    (hc : current ∈ hosts) (hnt : current ∉ tried) :
    untried hosts (tried ++ [current]) < untried hosts tried := by
  apply countP_lt_of _ _ current
  · simpa using hnt
  · simp
  · intro x _ hpx
    simp only [decide_eq_true_eq] at hpx ⊢
    intro hmem
    exact hpx (List.mem_append_left _ hmem)
  · exact hc

theorem forwardOutcome_error_of_failure (backend : String → BackendResult)
    (h : String) (hf : isHostFailure (backend h) = true) :
    ∃ e, forwardOutcome backend h = .error e := by
  cases hb : backend h with
  | transportError msg =>
    exact ⟨(502, "Host " ++ h ++ " failed: " ++ msg), by simp [forwardOutcome, hb]⟩
  | response resp =>
    simp only [isHostFailure, hb] at hf
    by_cases hst : 200 ≤ resp.status ∧ resp.status < 300
    · rw [if_pos hst] at hf
      cases hf
    · exact ⟨(resp.status, "Host " ++ h ++ " returned error: " ++ toString resp.status),
        by simp [forwardOutcome, hb, hst]⟩

theorem forwardOutcome_ok_inv (backend : String → BackendResult)
    (h : String) (resp : BackendResponse)
    (hok : forwardOutcome backend h = .ok resp) :
    backend h = .response resp ∧ 200 ≤ resp.status ∧ resp.status < 300 := by
  cases hb : backend h with
  | transportError msg =>
    rw [show forwardOutcome backend h = .error
      (502, "Host " ++ h ++ " failed: " ++ msg) from by simp [forwardOutcome, hb]] at hok
    cases hok
  | response r =>
    by_cases hst : 200 ≤ r.status ∧ r.status < 300
    · rw [show forwardOutcome backend h = .ok r from by
        simp [forwardOutcome, hb, hst]] at hok
      obtain rfl : r = resp := Except.ok.inj hok
      exact ⟨rfl, hst⟩
    · rw [show forwardOutcome backend h = .error
        (r.status, "Host " ++ h ++ " returned error: " ++ toString r.status) from by
        simp [forwardOutcome, hb, hst]] at hok
      cases hok

/-- Structural account of the retry loop: starting from an untried registered
host, the final `tried_hosts` list extends the initial one by a duplicate-free
block of registered, previously untried hosts beginning with the current
host; the run ends either in a relayed success whose host is the last tried
one, every earlier host of the block having failed, or in the 503
all-hosts-failed error with every host of the block failed and every
registered host tried. -/
theorem dispatchLoop_spec (hosts : List String)
    (attempt : String → Except (Nat × String) BackendResponse) :
    ∀ (fuel : Nat) (current : String) (tried : List String),
      current ∈ hosts → current ∉ tried → untried hosts tried ≤ fuel →
      ∃ extra : List String,
        (dispatchLoop hosts attempt fuel current tried).2 = tried ++ extra ∧
        extra.head? = some current ∧
        extra.Nodup ∧
        (∀ h ∈ extra, h ∈ hosts ∧ h ∉ tried) ∧
        ((∃ pre B resp, extra = pre ++ [B] ∧ attempt B = .ok resp ∧
            (dispatchLoop hosts attempt fuel current tried).1 = relay resp ∧
            ∀ A ∈ pre, ∃ e, attempt A = .error e) ∨
          ((dispatchLoop hosts attempt fuel current tried).1 =
              .failure 503 "All available hosts failed" ∧
            (∀ h ∈ extra, ∃ e, attempt h = .error e) ∧
            ∀ h ∈ hosts, h ∈ tried ++ extra)) := by
  intro fuel
  induction fuel with
  | zero =>
    intro current tried hc hnt hfuel
    have hpos := untried_pos hosts tried current hc hnt
    omega
  | succ fuel ih =>
    intro current tried hc hnt hfuel
    cases hatt : attempt current with
    | ok resp =>
      refine ⟨[current], by simp [dispatchLoop, hatt], rfl,
        List.nodup_singleton current, ?_, ?_⟩
      · intro h hh
        rw [List.mem_singleton] at hh
        subst hh
        exact ⟨hc, hnt⟩
      · left
        exact ⟨[], current, resp, by simp, hatt, by simp [dispatchLoop, hatt], by simp⟩
    | error e =>
      have hne : hosts ≠ [] := List.ne_nil_of_mem hc
      cases hfind : findNextHost hosts current (tried ++ [current]) with
      | none =>
        have hall : ∀ h ∈ hosts, h ∈ tried ++ [current] :=
          (findNextHost_none_iff hosts current (tried ++ [current])).mp hfind
        refine ⟨[current], by simp [dispatchLoop, hatt, hne, hfind], rfl,
          List.nodup_singleton current, ?_, ?_⟩
        · intro h hh
          rw [List.mem_singleton] at hh
          subst hh
          exact ⟨hc, hnt⟩
        · right
          refine ⟨by simp [dispatchLoop, hatt, hne, hfind], ?_, hall⟩
          intro h hh
          rw [List.mem_singleton] at hh
          subst hh
          exact ⟨e, hatt⟩
      | some next =>
        obtain ⟨hnmem, hnnt, _⟩ :=
          findNextHost_some hosts current (tried ++ [current]) next hfind
        have hfuel2 : untried hosts (tried ++ [current]) ≤ fuel := by
          have := untried_append_lt hosts tried current hc hnt
          omega
        obtain ⟨extra, htr, hhead, hnd, hmem, hres⟩ :=
          ih next (tried ++ [current]) hnmem hnnt hfuel2
        have hstep : dispatchLoop hosts attempt (fuel + 1) current tried =
            dispatchLoop hosts attempt fuel next (tried ++ [current]) := by
          simp [dispatchLoop, hatt, hne, hfind, hnnt]
        refine ⟨current :: extra, ?_, rfl, ?_, ?_, ?_⟩
        · rw [hstep, htr]
          simp
        · rw [List.nodup_cons]
          refine ⟨?_, hnd⟩
          intro hcur
          exact (hmem current hcur).2
            (List.mem_append_right tried (List.mem_singleton_self current))
        · intro h hh
          rw [List.mem_cons] at hh
          cases hh with
          | inl hh =>
            subst hh
            exact ⟨hc, hnt⟩
          | inr hh =>
            obtain ⟨h1, h2⟩ := hmem h hh
            exact ⟨h1, fun hmem2 => h2 (List.mem_append_left _ hmem2)⟩
        · cases hres with
          | inl hsucc =>
            obtain ⟨pre, B, resp, hex, hok, hrel, hpre⟩ := hsucc
            left
            refine ⟨current :: pre, B, resp, by rw [hex]; rfl, hok,
              by rw [hstep]; exact hrel, ?_⟩
            intro A hA
            rw [List.mem_cons] at hA
            cases hA with
            | inl hA =>
              subst hA
              exact ⟨e, hatt⟩
            | inr hA => exact hpre A hA
          | inr hfail =>
            obtain ⟨hr, herrs, hcov⟩ := hfail
            right
            refine ⟨by rw [hstep]; exact hr, ?_, ?_⟩
            · intro h hh
              rw [List.mem_cons] at hh
              cases hh with
              | inl hh =>
                subst hh
                exact ⟨e, hatt⟩
              | inr hh => exact herrs h hh
            · intro h hh
              have hcv := hcov h hh
              simpa [List.append_assoc] using hcv

theorem dispatch_ok (hosts : List String) (hne : hosts ≠ []) (counter : Nat)
    (attempt : String → Except (Nat × String) BackendResponse) :
    dispatch hosts counter attempt =
      ((dispatchLoop hosts attempt hosts.length
          (hosts.getD (counter % hosts.length) "") []).1,
        counter + 1,
        (dispatchLoop hosts attempt hosts.length
          (hosts.getD (counter % hosts.length) "") []).2) := by
  unfold dispatch
  rw [getNextHost_ok hosts hne counter]

/-! ### Claim C2 -/

/-- Claim C2: over a static non-empty duplicate-free registry in which every
registered host fails (transport error or non-2xx status), the dispatch
tries each registered host exactly once — the final attempt list is a
permutation of the registry — advances the rotation counter once, and
terminates with the single 503 all-hosts-failed error. -/
theorem all_hosts_fail_503 (hosts : List String) (counter : Nat)
    (backend : String → BackendResult)
    (hne : hosts ≠ []) (hnd : hosts.Nodup)
    (hfail : ∀ h ∈ hosts, isHostFailure (backend h) = true) :
    (dispatch hosts counter (forwardOutcome backend)).1 =
      .failure 503 "All available hosts failed" ∧
    (dispatch hosts counter (forwardOutcome backend)).2.1 = counter + 1 ∧
    (dispatch hosts counter (forwardOutcome backend)).2.2.Perm hosts := by
  have hN : 0 < hosts.length := List.length_pos.mpr hne
  have hfm : hosts.getD (counter % hosts.length) "" ∈ hosts := by
    rw [getD_lt hosts "" _ (Nat.mod_lt _ hN)]
    exact List.getElem_mem _
  have hfuel : untried hosts [] ≤ hosts.length := by
    unfold untried
    exact List.countP_le_length _
  obtain ⟨extra, htr, hhead, hnd2, hmem, hres⟩ :=
    dispatchLoop_spec hosts (forwardOutcome backend) hosts.length
      (hosts.getD (counter % hosts.length) "") [] hfm (List.not_mem_nil _) hfuel
  cases hres with
  | inl hsucc =>
    obtain ⟨pre, B, resp, hex, hokB, _, _⟩ := hsucc
    have hB : B ∈ extra := by
      rw [hex]
      exact List.mem_append_right _ (List.mem_singleton_self B)
    obtain ⟨e, he⟩ := forwardOutcome_error_of_failure backend B (hfail B (hmem B hB).1)
    rw [hokB] at he
    cases he
  | inr hfailr =>
    obtain ⟨hr, _, hcov⟩ := hfailr
    rw [dispatch_ok hosts hne counter]
    refine ⟨hr, rfl, ?_⟩
    show (dispatchLoop hosts (forwardOutcome backend) hosts.length
      (hosts.getD (counter % hosts.length) "") []).2.Perm hosts
    have htrEq : (dispatchLoop hosts (forwardOutcome backend) hosts.length
        (hosts.getD (counter % hosts.length) "") []).2 = extra := by
      simpa using htr
    rw [htrEq]
    apply List.perm_of_nodup_nodup_toFinset_eq hnd2 hnd
    apply Finset.ext
    intro a
    simp only [List.mem_toFinset]
    constructor
    · intro ha
      exact (hmem a ha).1
    · intro ha
      simpa using hcov a ha

/-- Witness for C2: two hosts, both unreachable, rotation counter 0: both are
tried once, the counter advances to 1, and the caller gets the single 503. -/
theorem all_hosts_fail_503_witness :
    (dispatch ["http://a", "http://b"] 0
        (forwardOutcome (fun _ => .transportError "connection refused"))).1 =
      .failure 503 "All available hosts failed" ∧
    (dispatch ["http://a", "http://b"] 0
        (forwardOutcome (fun _ => .transportError "connection refused"))).2.1 = 0 + 1 ∧
    (dispatch ["http://a", "http://b"] 0
        (forwardOutcome (fun _ => .transportError "connection refused"))).2.2.Perm
      ["http://a", "http://b"] := by
  exact all_hosts_fail_503 ["http://a", "http://b"] 0
    (fun _ => .transportError "connection refused") (by decide) (by decide)
    (fun h _ => rfl)

/-! ### Stream re-chunking lemmas (claims C7, C1) -/

theorem streamGen_cons (content : List Nat) (hne : content ≠ []) :
    streamGen content = content.take 8192 :: streamGen (content.drop 8192) := by
  have hlen : 0 < content.length := List.length_pos.mpr hne
  unfold streamGen
  rw [List.length_drop]
  have hcount : (content.length + 8191) / 8192 =
      (content.length - 8192 + 8191) / 8192 + 1 := by omega
  rw [hcount, List.range_succ_eq_map, List.map_cons, List.map_map]
  congr 1
  apply List.map_congr_left
  intro a _
  simp only [Function.comp_apply, Nat.succ_eq_add_one]
  have h8 : 8192 * (a + 1) = 8192 + 8192 * a := by ring
  rw [h8, ← List.drop_drop]

theorem streamGen_flatten (content : List Nat) :
    (streamGen content).flatten = content := by
  suffices h : ∀ (L : Nat) (c : List Nat), c.length ≤ L → (streamGen c).flatten = c by
    exact h content.length content (le_refl _)
  intro L
  induction L with
  | zero =>
    intro c hc
    have hcn : c = [] := List.eq_nil_of_length_eq_zero (Nat.le_zero.mp hc)
    subst hcn
    rfl
  | succ L ih =>
    intro c hc
    by_cases hne : c = []
    · subst hne
      rfl
    · rw [streamGen_cons c hne, List.flatten_cons, ih (c.drop 8192) ?_,
        List.take_append_drop]
      rw [List.length_drop]
      have : 0 < c.length := List.length_pos.mpr hne
      omega

theorem streamGen_chunk_le (content : List Nat) :
    ∀ c ∈ streamGen content, c.length ≤ 8192 := by
  intro c hc
  unfold streamGen at hc
  obtain ⟨i, _, rfl⟩ := List.mem_map.mp hc
  exact List.length_take_le 8192 _

/-! ### Claim C7 -/

/-- Claim C7: when a dispatch ends in a streamed success, the last tried host
B supplied the response: the caller-visible status is B's status, the media
type is B's Content-Type (defaulting to application/json when B sent none),
the concatenation of the relayed chunks is exactly B's body bytes, and every
earlier host A in the attempt list failed and was attempted exactly once. -/
theorem failover_success_relay (hosts : List String) (counter : Nat)
    (backend : String → BackendResult) (st : Nat) (mt : String)
    (chunks : List (List Nat)) (c2 : Nat) (tried : List String)
    (hrun : dispatch hosts counter (forwardOutcome backend) =
      (.success st mt chunks, c2, tried)) :
    ∃ pre B resp, tried = pre ++ [B] ∧
      backend B = .response resp ∧
      st = resp.status ∧
      mt = resp.contentType.getD "application/json" ∧
      chunks = streamGen resp.body ∧
      chunks.flatten = resp.body ∧
      ∀ A ∈ pre, (∃ e, forwardOutcome backend A = .error e) ∧
        tried.count A = 1 := by
  by_cases hne : hosts = []
  · subst hne
    rw [show dispatch [] counter (forwardOutcome backend) =
      (.failure 503 "No Ollama hosts registered", counter, []) from rfl] at hrun
    exact absurd (congrArg Prod.fst hrun) (by simp)
  · have hN : 0 < hosts.length := List.length_pos.mpr hne
    have hfm : hosts.getD (counter % hosts.length) "" ∈ hosts := by
      rw [getD_lt hosts "" _ (Nat.mod_lt _ hN)]
      exact List.getElem_mem _
    have hfuel : untried hosts [] ≤ hosts.length := by
      unfold untried
      exact List.countP_le_length _
    obtain ⟨extra, htr, hhead, hnd2, hmem, hres⟩ :=
      dispatchLoop_spec hosts (forwardOutcome backend) hosts.length
        (hosts.getD (counter % hosts.length) "") [] hfm (List.not_mem_nil _) hfuel
    rw [dispatch_ok hosts hne counter] at hrun
    have h1 : (dispatchLoop hosts (forwardOutcome backend) hosts.length
        (hosts.getD (counter % hosts.length) "") []).1 = .success st mt chunks :=
      congrArg Prod.fst hrun
    have h3 : (dispatchLoop hosts (forwardOutcome backend) hosts.length
        (hosts.getD (counter % hosts.length) "") []).2 = tried :=
      congrArg (fun p => p.2.2) hrun
    cases hres with
    | inr hfailr =>
      rw [hfailr.1] at h1
      cases h1
    | inl hsucc =>
      obtain ⟨pre, B, resp, hex, hokB, hrel, hpre⟩ := hsucc
      rw [hrel] at h1
      unfold relay at h1
      injection h1 with hst hmt hch
      obtain ⟨hbB, _, _⟩ := forwardOutcome_ok_inv backend B resp hokB
      have htriedEq : tried = extra := by
        rw [← h3, htr]
        simp
      refine ⟨pre, B, resp, by rw [htriedEq, hex], hbB, hst.symm, hmt.symm,
        hch.symm, ?_, ?_⟩
      · rw [← hch]
        exact streamGen_flatten resp.body
      · intro A hA
        have hAex : A ∈ extra := by
          rw [hex]
          exact List.mem_append_left _ hA
        refine ⟨hpre A hA, ?_⟩
        rw [htriedEq]
        exact List.count_eq_one_of_mem hnd2 hAex

/-- Concrete backends used by the C7 witness: host a is unreachable, host b
answers 200 with an ndjson body. -/
def sampleBackend : String → BackendResult :=
  fun h => if h = "http://a" then .transportError "down"
    else .response ⟨200, some "application/x-ndjson", [1, 2, 3]⟩

/-- Witness for C7: dispatch over [a, b] fails on a, succeeds on b, and the
caller sees b's status, content type and body, with a attempted once. -/
theorem failover_success_relay_witness :
    ∃ pre B resp,
      (["http://a", "http://b"] : List String) = pre ++ [B] ∧
      sampleBackend B = .response resp ∧
      200 = resp.status ∧
      "application/x-ndjson" = resp.contentType.getD "application/json" ∧
      ([[1, 2, 3]] : List (List Nat)) = streamGen resp.body ∧
      ([[1, 2, 3]] : List (List Nat)).flatten = resp.body ∧
      ∀ A ∈ pre, (∃ e, forwardOutcome sampleBackend A = .error e) ∧
        (["http://a", "http://b"] : List String).count A = 1 := by
  exact failover_success_relay ["http://a", "http://b"] 0 sampleBackend 200
    "application/x-ndjson" [[1, 2, 3]] 1 ["http://a", "http://b"] (by decide)

/-! ### Claim C1 -/

/-- Claim C1 (code defect): the relay is a pure re-chunking of the fully
materialized body.  `stream_gen` reads `response.content` — the complete
payload, already received by the non-streaming `forward_request`, whose
`stream` parameter is never used — and slices it into at-most-8192-byte
chunks whose concatenation is the whole body: on a 20000-byte response the
8192/8192/3616 split exists only once the entire payload is in memory. -/
theorem stream_rechunks_materialized_body :
    streamGen (List.replicate 20000 7) =
      [List.replicate 8192 7, List.replicate 8192 7, List.replicate 3616 7] ∧
    (streamGen (List.replicate 20000 7)).flatten = List.replicate 20000 7 ∧
    ∀ c ∈ streamGen (List.replicate 20000 7), c.length ≤ 8192 := by
  refine ⟨?_, streamGen_flatten _, streamGen_chunk_le _⟩
  unfold streamGen
  rw [List.length_replicate]
  rw [show (20000 + 8191) / 8192 = 3 from by norm_num]
  rw [show List.range 3 = [0, 1, 2] from by decide]
  simp only [List.map_cons, List.map_nil, List.drop_replicate, List.take_replicate]
  norm_num

end OllamaSwarm
